import Mathlib

/-!
Shallow embedding of the image-combination service in `src/main.py`
(FastAPI endpoint `POST /combine`).

Modelling conventions:

* A decoded PIL image is represented by its pixel dimensions (`Img`);
  the raster contents are opaque to every property treated here.
* Python `int` arithmetic is `ℤ`/`ℕ`; Python floor division `//` and the
  Lean `/` on `ℤ` (Euclidean division) agree on the non-negative divisors
  used by the program.
* Python float expressions (`ImageOps.contain` ratios, the finalizer's
  `scale_factor`) are modelled in exact rational arithmetic.  In the
  finalizer the rational minimum makes one factor cancel, so
  `int(canvas.width * scale_factor)` is implemented with exact integer
  division; the equivalence with the rational formula
  `⌊W * min (2560/W) (1408/H)⌋` is proved below (`finalize_eq_floor`).
* `httpx` and image decoding are opaque: a `World` maps each URL to the
  observable outcome of `GET` (network failure, or a status code plus a
  body that either decodes to an image or does not).
* The font subsystem is opaque: a `Font` is the text-measurement function
  `ImageDraw.textbbox` ((x0, y0, x1, y1) of the rendered text at origin).
* The FastAPI/pydantic request-validation layer that runs before the
  handler is modelled by `pydanticValid`: each item must satisfy the
  declared field constraints (`AnyHttpUrl`, `min_length=1`); a violation
  produces a 422 response (FastAPI's `RequestValidationError` behaviour)
  and the handler never runs.
-/

namespace CombineImage

/-- RGB white, the canvas background colour (`color="white"`). -/
def colorWhiteRGB : ℕ × ℕ × ℕ := (255, 255, 255)

/-- RGB black, the border outline colour (`outline="black"`). -/
def colorBlackRGB : ℕ × ℕ × ℕ := (0, 0, 0)

/-- Fully transparent RGBA, the background of rendered text bitmaps. -/
def rgbaTransparent : ℕ × ℕ × ℕ × ℕ := (0, 0, 0, 0)

/-- Opaque black RGBA, the text fill colour (`fill="black"`). -/
def rgbaBlack : ℕ × ℕ × ℕ × ℕ := (0, 0, 0, 255)

/-- A decoded bitmap, abstracted to its pixel dimensions. -/
structure Img where
  width : ℕ
  height : ℕ
deriving DecidableEq, Repr

/-- Python's built-in `round` (round half to even) applied to the exact
non-negative rational `num / den`. -/
def pyRound (num den : ℕ) : ℕ :=
  let q := num / den
  let r := num % den
  if 2 * r < den then q
  else if den < 2 * r then q + 1
  else if q % 2 = 0 then q else q + 1

/-- PIL `ImageOps.contain(image, (boxW, boxH))`: resize (up or down) to
the largest size that fits inside the box while preserving the aspect
ratio.  The float ratio comparisons `im_ratio != dest_ratio` and
`im_ratio > dest_ratio` are modelled by exact cross-multiplication, and
`round(image.height / image.width * size[0])` by `pyRound` of the exact
rational. -/
def contain (img : Img) (boxW boxH : ℕ) : Img :=
  if img.width * boxH = boxW * img.height then ⟨boxW, boxH⟩
  else if boxW * img.height < img.width * boxH then
    ⟨boxW, pyRound (img.height * boxW) img.width⟩
  else
    ⟨pyRound (img.width * boxH) img.height, boxH⟩

/-- Characters stripped by Python `str.strip()` (str.isspace in the
Latin-1 range; the model covers the whitespace actually strippable in
the requests considered here). -/
def pyWhitespace (c : Char) : Bool :=
  c = ' ' || c = '\t' || c = '\n' || c = '\r' || c = '\x0b' || c = '\x0c' ||
  c = '\x1c' || c = '\x1d' || c = '\x1e' || c = '\x1f' || c = '\x85' || c = '\xa0'

/-- Python `str.strip()` on the character list: drop whitespace from the
front, then from the back. -/
def stripL (l : List Char) : List Char :=
  (((l.dropWhile pyWhitespace).reverse.dropWhile pyWhitespace)).reverse

/-- Python `str.strip()`. -/
def pstrip (s : String) : String := ⟨stripL s.data⟩

/-- ImageDraw.textbbox result: (x0, y0, x1, y1) of the text drawn at
anchor (0, 0).  A `Font` is the measurement function the loaded font
induces; font loading itself (`get_font`) is opaque and outside the
claims treated here. -/
structure Font where
  bbox : String → ℤ × ℤ × ℤ × ℤ

/-- One `ImageDraw.text` call: the drawn text, its position and fill. -/
structure TextDraw where
  text : String
  x : ℤ
  y : ℤ
  fill : ℕ × ℕ × ℕ × ℕ
deriving DecidableEq, Repr

/-- An RGBA text bitmap as produced by `render_text_image`: its size,
the fill colour of `Image.new` (the background), and the single
`ImageDraw.text` call drawn on it, if any. -/
structure TextImage where
  width : ℤ
  height : ℤ
  bg : ℕ × ℕ × ℕ × ℕ
  draw : Option TextDraw
deriving DecidableEq, Repr

/-- Lines 64-82 of `src/main.py` (`render_text_image`): strip the text;
an empty result yields a 1 x 1 transparent bitmap; otherwise measure the
tight bounding box and draw the text at `(-x0, -y0)` in black on a
transparent bitmap of exactly the bounding-box size. -/
def render_text_image (text : String) (font : Font) : TextImage × ℤ × ℤ :=
  let t := pstrip text
  if t = "" then (⟨1, 1, rgbaTransparent, none⟩, 1, 1)
  else
    match font.bbox t with
    | (x0, y0, x1, y1) =>
      let w := x1 - x0
      let h := y1 - y0
      (⟨w, h, rgbaTransparent, some ⟨t, -x0, -y0, rgbaBlack⟩⟩, w, h)

/-- Observable body of an HTTP response: bytes that decode to a raster
image of the given size, or bytes that do not decode
(`UnidentifiedImageError`/`OSError` from `Image.open`/`load`). -/
inductive Body
  | image (img : Img)
  | nonImage
deriving DecidableEq, Repr

/-- Observable outcome of `client.get(url)`: a network-level failure
(an `httpx.HTTPError` raised by the transport) or a response with a
status code and a body. -/
inductive HttpResult
  | netFail
  | response (status : ℕ) (body : Body)
deriving DecidableEq, Repr

/-- The network environment: what `GET` returns for each URL. -/
structure World where
  get : String → HttpResult

/-- Errors raised by the handler (`fastapi.HTTPException`). -/
inductive Err
  | http (status : ℕ) (detail : String)
deriving DecidableEq, Repr

/-- Lines 30-43 of `src/main.py` (`fetch_image`): `GET` the URL;
`raise_for_status` turns any non-2xx status into an `httpx.HTTPError`,
and any `httpx.HTTPError` becomes a 400 naming the URL; a body that
does not decode as an image becomes a 400 naming the URL; otherwise the
decoded image (converted to RGBA, which keeps its dimensions) is
returned. -/
def fetch_image (world : World) (url : String) : Except Err Img :=
  match world.get url with
  | .netFail => .error (.http 400 ("Failed to download image: " ++ url))
  | .response status body =>
    if 200 ≤ status ∧ status < 300 then
      match body with
      | .image img => .ok img
      | .nonImage => .error (.http 400 ("Invalid image content at: " ++ url))
    else
      .error (.http 400 ("Failed to download image: " ++ url))

/-- One item of the request body, before validation: the raw JSON
fields of `ImageTextItem`. -/
structure RawItem where
  imageUrl : String
  text : String
deriving DecidableEq, Repr

/-- Prefix test on character lists (structural form of
`String.startsWith`). -/
def startsWithL : List Char → List Char → Bool
  | _, [] => true
  | [], _ :: _ => false
  | c :: cs, p :: ps => c = p && startsWithL cs ps

/-- Pydantic `AnyHttpUrl`: a well-formed URL with scheme http or https
and a non-empty host (modelled syntactically). -/
def isValidHttpUrl (s : String) : Bool :=
  (startsWithL s.data "http://".data && 7 < s.length) ||
  (startsWithL s.data "https://".data && 8 < s.length)

/-- The declared pydantic field constraints of `ImageTextItem`
(line 21-23 of `src/main.py`): `imageUrl : AnyHttpUrl` and
`text : str = Field(min_length=1)`.  Note `min_length` counts raw
characters, so a whitespace-only caption of length ≥ 1 passes. -/
def pydanticValid (it : RawItem) : Bool :=
  isValidHttpUrl it.imageUrl && 1 ≤ it.text.length

/-- One image+caption block assembled in the fetch loop
(lines 99-113 of `src/main.py`). -/
structure Block where
  image : Img
  text_image : TextImage
  text_width : ℤ
  text_height : ℤ
deriving DecidableEq, Repr

/-- Body of one iteration of the fetch loop (lines 99-113): fetch and
decode the image, resize it with `ImageOps.contain` into a 1024 x 1024
box, strip the caption and render it. -/
def buildBlock (world : World) (font : Font) (it : RawItem) : Except Err Block :=
  match fetch_image world it.imageUrl with
  | .error e => .error e
  | .ok img =>
    let resized := contain img 1024 1024
    let rt := render_text_image (pstrip it.text) font
    .ok ⟨resized, rt.1, rt.2.1, rt.2.2⟩

/-- The fetch loop over all items, in order, aborting at the first
failure (the awaited `fetch_image` raises `HTTPException` out of the
handler). -/
def fetchAll (world : World) (font : Font) : List RawItem → Except Err (List Block)
  | [] => .ok []
  | it :: rest =>
    match buildBlock world font it with
    | .error e => .error e
    | .ok b =>
      match fetchAll world font rest with
      | .error e => .error e
      | .ok bs => .ok (b :: bs)

/-- A `canvas.paste` call, abstracted to the target rectangle: position
and size of the pasted bitmap. -/
structure PasteCmd where
  x : ℤ
  y : ℤ
  w : ℤ
  h : ℤ
deriving DecidableEq, Repr

/-- A `draw.rectangle([...], outline=...)` call: the two corners and the
outline colour. -/
structure RectCmd where
  x0 : ℤ
  y0 : ℤ
  x1 : ℤ
  y1 : ℤ
  outline : ℕ × ℕ × ℕ
deriving DecidableEq, Repr

/-- The drawing operations one iteration of the placement loop
(lines 136-172 of `src/main.py`) performs for one block: the caption
paste, the image paste (each masked by its own alpha channel) and the
border rectangles. -/
structure BlockCmds where
  textPaste : PasteCmd
  imagePaste : PasteCmd
  border : List RectCmd
deriving DecidableEq, Repr

/-- The composed canvas of stage 4: dimensions, background colour and
the per-block drawing operations, in block order. -/
structure Canvas where
  width : ℤ
  height : ℤ
  bg : ℕ × ℕ × ℕ
  renders : List BlockCmds
deriving DecidableEq, Repr

/-- Line 115: `max_content_width`, the maximum over blocks of
`max(image.width, text_width)` (a Python `max` of a non-empty list; the
fold base 0 is never the maximum since every entry is ≥ image.width ≥ 0). -/
def maxContentWidth (blocks : List Block) : ℤ :=
  (blocks.map fun b => max (b.image.width : ℤ) b.text_width).foldl max 0

/-- Line 116: `max_image_height`. -/
def maxImageHeight (blocks : List Block) : ℤ :=
  (blocks.map fun b => (b.image.height : ℤ)).foldl max 0

/-- Line 117: `max_text_height` (Python `max` of a non-empty list; the
fold base 0 coincides with it whenever every text height is ≥ 0, which
the layout theorems hypothesise). -/
def maxTextHeight (blocks : List Block) : ℤ :=
  (blocks.map fun b => b.text_height).foldl max 0

/-- Line 119: `cell_width = max_content_width + 2 * padding`. -/
def cellWidth (blocks : List Block) : ℤ := maxContentWidth blocks + 2 * 24

/-- Line 120: `cell_height = max_image_height + max_text_height +
text_to_image_spacing + 2 * padding`. -/
def cellHeight (blocks : List Block) : ℤ :=
  maxImageHeight blocks + maxTextHeight blocks + 8 + 2 * 24

/-- Lines 122-128: grid shape (cols, rows) by item count. -/
def gridShape (n : ℕ) : ℕ × ℕ :=
  if n = 1 then (1, 1) else if n = 2 then (2, 1) else (2, 2)

/-- Lines 136-172, one iteration of the placement loop for block
`b` at index `i`: compute the cell offset (`row = i // 2`,
`col = i % 2`), centre the block box in the cell (floor division),
paste caption then image, then draw `border_width = 2` concentric
1-pixel rectangle outlines inset progressively from the cell's outer
edge. -/
def renderBlock (cw ch : ℤ) (i : ℕ) (b : Block) : BlockCmds :=
  let xo : ℤ := (i % 2 : ℕ) * cw
  let yo : ℤ := (i / 2 : ℕ) * ch
  let bw : ℤ := max (b.image.width : ℤ) b.text_width + 2 * 24
  let bh : ℤ := b.text_height + 8 + (b.image.height : ℤ) + 2 * 24
  let bl : ℤ := xo + (cw - bw) / 2
  let bt : ℤ := yo + (ch - bh) / 2
  let tx : ℤ := bl + (bw - b.text_width) / 2
  let ty : ℤ := bt + 24
  let ix : ℤ := bl + (bw - (b.image.width : ℤ)) / 2
  let iy : ℤ := ty + b.text_height + 8
  { textPaste := ⟨tx, ty, b.text_width, b.text_height⟩
    imagePaste := ⟨ix, iy, (b.image.width : ℤ), (b.image.height : ℤ)⟩
    border := (List.range 2).map fun (k : ℕ) =>
      ⟨xo + (k : ℤ), yo + (k : ℤ), xo + cw - 1 - (k : ℤ), yo + ch - 1 - (k : ℤ),
       colorBlackRGB⟩ }

/-- The placement loop (`for index, block in enumerate(blocks)`),
carrying the running index. -/
def renderAll (cw ch : ℤ) (i : ℕ) : List Block → List BlockCmds
  | [] => []
  | b :: bs => renderBlock cw ch i b :: renderAll cw ch (i + 1) bs

/-- Lines 115-172: the composed canvas of stage 4 — a white RGB canvas
of `cell_width * cols` by `cell_height * rows` with every block drawn
into its grid cell. -/
def combineLayout (blocks : List Block) : Canvas :=
  let cw := cellWidth blocks
  let ch := cellHeight blocks
  match gridShape blocks.length with
  | (cols, rows) =>
    { width := cw * (cols : ℤ), height := ch * (rows : ℤ),
      bg := colorWhiteRGB,
      renders := renderAll cw ch 0 blocks }

/-- Target output width (line 16). -/
def TARGET_WIDTH : ℤ := 2560

/-- Target output height (line 17). -/
def TARGET_HEIGHT : ℤ := 1408

/-- Result of the finalizer (lines 174-183): the composed canvas used
unmodified, or a letterboxed result recording the scaled size
`(sw, sh)` and the paste offset `(px, py)` onto the white target-size
canvas. -/
inductive FinalImage
  | unchanged (c : Canvas)
  | letterboxed (c : Canvas) (sw sh px py : ℤ)
deriving DecidableEq, Repr

/-- Lines 174-183 (`canvas.size != (TARGET_WIDTH, TARGET_HEIGHT)`
branch).  `scale_factor = min(2560/W, 1408/H)` and
`int(canvas.width * scale_factor)` are modelled in exact rational
arithmetic; because the minimum cancels one factor exactly, the two
truncated products are `2560` and `H * 2560 / W` when
`2560/W ≤ 1408/H` (equivalently `2560 * H ≤ 1408 * W`), and
`W * 1408 / H` and `1408` otherwise — the definition uses this exact
integer form so it evaluates without rational normalisation; theorem
`finalize_eq_floor` proves it equal to the rational-floor formula.
Both scaled dimensions are clamped to at least 1 and at most the
target, and the paste offset is the floor-divided centring offset. -/
def finalize (c : Canvas) : FinalImage :=
  if c.width = TARGET_WIDTH ∧ c.height = TARGET_HEIGHT then .unchanged c
  else
    let swRaw : ℤ :=
      if TARGET_WIDTH * c.height ≤ TARGET_HEIGHT * c.width then TARGET_WIDTH
      else c.width * TARGET_HEIGHT / c.height
    let shRaw : ℤ :=
      if TARGET_WIDTH * c.height ≤ TARGET_HEIGHT * c.width then
        c.height * TARGET_WIDTH / c.width
      else TARGET_HEIGHT
    let sw := max 1 (min TARGET_WIDTH swRaw)
    let sh := max 1 (min TARGET_HEIGHT shRaw)
    .letterboxed c sw sh ((TARGET_WIDTH - sw) / 2) ((TARGET_HEIGHT - sh) / 2)

/-- Provenance of one output pixel of the final canvas: white
background, or a pixel of the (scaled) composed canvas. -/
inductive FinalPixel
  | white
  | scaledContent
deriving DecidableEq, Repr

/-- Pixel provenance of the finalizer's output: the unchanged canvas is
content everywhere; the letterboxed canvas is `Image.new(..., "white")`
with the scaled canvas pasted at `(px, py)`, so exactly the rectangle
`[px, px+sw) x [py, py+sh)` is content and everything else is white. -/
def finalPixel : FinalImage → ℤ → ℤ → FinalPixel
  | .unchanged _, _, _ => .scaledContent
  | .letterboxed _ sw sh px py, x, y =>
    if px ≤ x ∧ x < px + sw ∧ py ≤ y ∧ y < py + sh then .scaledContent
    else .white

/-- Pixel dimensions of the finalizer's output. -/
def outputDims : FinalImage → ℤ × ℤ
  | .unchanged c => (c.width, c.height)
  | .letterboxed _ _ _ _ _ => (TARGET_WIDTH, TARGET_HEIGHT)

/-- The PNG encoding of the final canvas (lines 185-188).  PNG is
lossless, so the encoded bytes determine exactly the final canvas and
its pixel dimensions; the model keeps both. -/
structure Png where
  width : ℤ
  height : ℤ
  image : FinalImage
deriving DecidableEq, Repr

/-- Lossless PNG encoding: the decoded pixel dimensions of the result
are the dimensions of the encoded canvas. -/
def encodePng (f : FinalImage) : Png := ⟨(outputDims f).1, (outputDims f).2, f⟩

/-- The HTTP response the caller observes: 200 with a PNG body, or an
error status with a detail message. -/
inductive HttpResponse
  | ok (png : Png)
  | clientError (status : ℕ) (detail : String)
deriving DecidableEq, Repr

/-- Lines 85-190 (`combine_images`) together with the framework's
request validation: pydantic validates every item first (422 on
violation, before the handler runs); the handler rejects item counts
outside [1, 4] with 400; then the pipeline fetches all items
(fail-fast), lays them out, finalizes and encodes. -/
def combine_images (world : World) (font : Font) (items : List RawItem) : HttpResponse :=
  if ¬ items.all pydanticValid then
    .clientError 422 "request validation failed"
  else if ¬ (1 ≤ items.length ∧ items.length ≤ 4) then
    .clientError 400 "Provide between 1 and 4 items."
  else
    match fetchAll world font items with
    | .error (.http status detail) => .clientError status detail
    | .ok blocks => .ok (encodePng (finalize (combineLayout blocks)))

/-- True exactly on responses carrying a PNG body (HTTP 200). -/
def HttpResponse.isOk : HttpResponse → Bool
  | .ok _ => true
  | .clientError _ _ => false

/-- Detail message of the error `fetch_image` raises for this URL, if
it raises one. -/
def fetchErr (world : World) (url : String) : Option String :=
  match fetch_image world url with
  | .error (.http _ d) => some d
  | .ok _ => none

/-- Point membership in the rectangle covered by a paste command. -/
def inPaste (pc : PasteCmd) (x y : ℤ) : Prop :=
  pc.x ≤ x ∧ x < pc.x + pc.w ∧ pc.y ≤ y ∧ y < pc.y + pc.h

/-- Point membership in (the bounding box of) a rectangle outline. -/
def inRectCmd (r : RectCmd) (x y : ℤ) : Prop :=
  r.x0 ≤ x ∧ x ≤ r.x1 ∧ r.y0 ≤ y ∧ y ≤ r.y1

/-- Point touched by some drawing operation of a block. -/
def inBlockCmds (bc : BlockCmds) (x y : ℤ) : Prop :=
  inPaste bc.textPaste x y ∨ inPaste bc.imagePaste x y ∨ ∃ r ∈ bc.border, inRectCmd r x y

/-- Point membership in grid cell number `i` (row `i / 2`,
column `i % 2`) for cells of size `cw` by `ch`. -/
def inCell (cw ch : ℤ) (i : ℕ) (x y : ℤ) : Prop :=
  ((i % 2 : ℕ) : ℤ) * cw ≤ x ∧ x < ((i % 2 : ℕ) : ℤ) * cw + cw ∧
  ((i / 2 : ℕ) : ℤ) * ch ≤ y ∧ y < ((i / 2 : ℕ) : ℤ) * ch + ch

/-- A network environment where every URL serves a 200 response whose
body decodes to a 200 x 100 image. -/
def demoWorld : World := ⟨fun _ => .response 200 (.image ⟨200, 100⟩)⟩

/-- A font whose measurement returns the bounding box (0, 10, 60, 50)
for every string. -/
def demoFont : Font := ⟨fun _ => (0, 10, 60, 50)⟩

/-- A valid single-item request with a non-blank caption. -/
def demoReq : List RawItem := [⟨"http://example.com/a.png", "hi"⟩]

/-- A single-item request whose caption is whitespace only. -/
def demoReqBlank : List RawItem := [⟨"http://example.com/a.png", " "⟩]

/-- A block with a 100 x 50 image and a 30 x 20 caption bitmap. -/
def demoBlock : Block := ⟨⟨100, 50⟩, ⟨30, 20, rgbaTransparent, none⟩, 30, 20⟩

/-- Three identical demo blocks (the 3-item layout case). -/
def demoBlocks3 : List Block := [demoBlock, demoBlock, demoBlock]

/-! Helper lemmas. -/

theorem foldl_max_init_le (l : List ℤ) (init : ℤ) : init ≤ l.foldl max init := by
  induction l generalizing init with
  | nil => exact le_refl _
  | cons x xs ih => exact le_trans (le_max_left init x) (ih (max init x))

theorem le_foldl_max (l : List ℤ) : ∀ (init a : ℤ), a ∈ l → a ≤ l.foldl max init := by
  induction l with
  | nil => intro _ a ha; cases ha
  | cons x xs ih =>
    intro init a ha
    rcases List.mem_cons.mp ha with rfl | hmem
    · exact le_trans (le_max_right init a) (foldl_max_init_le xs (max init a))
    · exact ih (max init x) a hmem

theorem dropWhile_ws_of_all (l : List Char)
    (h : ∀ c ∈ l, pyWhitespace c = true) : l.dropWhile pyWhitespace = [] := by
  induction l with
  | nil => rfl
  | cons x xs ih =>
    rw [List.dropWhile_cons, h x (List.mem_cons_self x xs), if_pos rfl]
    exact ih fun c hc => h c (List.mem_cons_of_mem x hc)

theorem dropWhile_ws_append (p l : List Char)
    (hp : ∀ c ∈ p, pyWhitespace c = true) :
    (p ++ l).dropWhile pyWhitespace = l.dropWhile pyWhitespace := by
  induction p with
  | nil => rfl
  | cons x xs ih =>
    rw [List.cons_append, List.dropWhile_cons, hp x (List.mem_cons_self x xs), if_pos rfl]
    exact ih fun c hc => hp c (List.mem_cons_of_mem x hc)

theorem dropWhile_append_disj (m q : List Char) :
    ((m ++ q).dropWhile pyWhitespace = m.dropWhile pyWhitespace ++ q ∧
      m.dropWhile pyWhitespace ≠ []) ∨
    (m.dropWhile pyWhitespace = [] ∧
      (m ++ q).dropWhile pyWhitespace = q.dropWhile pyWhitespace) := by
  induction m with
  | nil => exact Or.inr ⟨rfl, rfl⟩
  | cons x xs ih =>
    by_cases hx : pyWhitespace x = true
    · rw [List.cons_append, List.dropWhile_cons, if_pos hx, List.dropWhile_cons, if_pos hx]
      exact ih
    · rw [List.cons_append, List.dropWhile_cons, if_neg hx, List.dropWhile_cons, if_neg hx]
      exact Or.inl ⟨rfl, by simp⟩

theorem stripL_ws_left (p l : List Char) (hp : ∀ c ∈ p, pyWhitespace c = true) :
    stripL (p ++ l) = stripL l := by
  unfold stripL
  rw [dropWhile_ws_append p l hp]

theorem stripL_ws_right (l q : List Char) (hq : ∀ c ∈ q, pyWhitespace c = true) :
    stripL (l ++ q) = stripL l := by
  unfold stripL
  rcases dropWhile_append_disj l q with ⟨heq, _⟩ | ⟨hnil, heq⟩
  · rw [heq, List.reverse_append, dropWhile_ws_append q.reverse _
      (fun c hc => hq c (List.mem_reverse.mp hc))]
  · rw [heq, hnil, List.reverse_nil, List.dropWhile_nil, List.reverse_nil]
    have hq2 : ∀ c ∈ (q.dropWhile pyWhitespace).reverse, pyWhitespace c = true := by
      intro c hc
      exact hq c (List.dropWhile_sublist (p := pyWhitespace) |>.mem (List.mem_reverse.mp hc))
    rw [dropWhile_ws_of_all _ hq2, List.reverse_nil]

theorem pstrip_pad (p q : List Char) (t : String)
    (hp : ∀ c ∈ p, pyWhitespace c = true) (hq : ∀ c ∈ q, pyWhitespace c = true) :
    pstrip ((⟨p⟩ : String) ++ t ++ (⟨q⟩ : String)) = pstrip t := by
  show (⟨stripL ((p ++ t.data) ++ q)⟩ : String) = ⟨stripL t.data⟩
  rw [stripL_ws_right _ q hq, stripL_ws_left p t.data hp]

theorem floor_intCast_div (n d : ℤ) (hd : 0 < d) :
    ⌊(n : ℚ) / (d : ℚ)⌋ = n / d := by
  have hd0 : (0 : ℚ) < (d : ℚ) := by exact_mod_cast hd
  have hmod : d * (n / d) + n % d = n := Int.ediv_add_emod n d
  have hmn : 0 ≤ n % d := Int.emod_nonneg n (ne_of_gt hd)
  have hmx : n % d < d := Int.emod_lt_of_pos n hd
  have h1 : (n / d) * d ≤ n := by nlinarith [hmod, hmn]
  have h2 : n < (n / d + 1) * d := by nlinarith [hmod, hmx]
  rw [Int.floor_eq_iff]
  constructor
  · rw [le_div_iff₀ hd0]
    exact_mod_cast h1
  · rw [div_lt_iff₀ hd0]
    exact_mod_cast h2

theorem floor_mul_ratio (a b d : ℤ) (hd : 0 < d) :
    ⌊(a : ℚ) * ((b : ℚ) / (d : ℚ))⌋ = a * b / d := by
  rw [mul_div_assoc']
  rw [show ((a : ℚ) * (b : ℚ)) = ((a * b : ℤ) : ℚ) by push_cast; ring]
  exact floor_intCast_div (a * b) d hd

theorem min_ratio_left (W H : ℤ) (hW : 0 < W) (hH : 0 < H)
    (h : 2560 * H ≤ 1408 * W) :
    min ((2560 : ℚ) / (W : ℚ)) ((1408 : ℚ) / (H : ℚ)) = (2560 : ℚ) / (W : ℚ) := by
  apply min_eq_left
  rw [div_le_div_iff₀ (by exact_mod_cast hW) (by exact_mod_cast hH)]
  exact_mod_cast h

theorem min_ratio_right (W H : ℤ) (hW : 0 < W) (hH : 0 < H)
    (h : ¬ 2560 * H ≤ 1408 * W) :
    min ((2560 : ℚ) / (W : ℚ)) ((1408 : ℚ) / (H : ℚ)) = (1408 : ℚ) / (H : ℚ) := by
  apply min_eq_right
  rw [div_le_div_iff₀ (by exact_mod_cast hH) (by exact_mod_cast hW)]
  have hz : (1408 : ℤ) * W ≤ 2560 * H := by omega
  exact_mod_cast hz

/-- The integer finalizer arithmetic agrees with the rational formula
of the source (`int(canvas.width * scale_factor)` with
`scale_factor = min(2560/W, 1408/H)` in exact arithmetic). -/
theorem finalize_eq_floor (W H : ℤ) (hW : 0 < W) (hH : 0 < H) :
    ((if 2560 * H ≤ 1408 * W then (2560 : ℤ) else W * 1408 / H) =
      ⌊(W : ℚ) * min ((2560 : ℚ) / (W : ℚ)) ((1408 : ℚ) / (H : ℚ))⌋) ∧
    ((if 2560 * H ≤ 1408 * W then H * 2560 / W else (1408 : ℤ)) =
      ⌊(H : ℚ) * min ((2560 : ℚ) / (W : ℚ)) ((1408 : ℚ) / (H : ℚ))⌋) := by
  by_cases hc : 2560 * H ≤ 1408 * W
  · rw [min_ratio_left W H hW hH hc, if_pos hc, if_pos hc]
    constructor
    · rw [mul_div_assoc']
      rw [mul_comm (W : ℚ) (2560 : ℚ), mul_div_assoc,
        div_self (by positivity : (W : ℚ) ≠ 0), mul_one]
      norm_num
    · exact (floor_mul_ratio H 2560 W hW).symm
  · rw [min_ratio_right W H hW hH hc, if_neg hc, if_neg hc]
    constructor
    · exact (floor_mul_ratio W 1408 H hH).symm
    · rw [mul_div_assoc']
      rw [mul_comm (H : ℚ) (1408 : ℚ), mul_div_assoc,
        div_self (by positivity : (H : ℚ) ≠ 0), mul_one]
      norm_num

theorem pyRound_le (n d k : ℕ) (hd : 0 < d) (h : n < k * d) : pyRound n d ≤ k := by
  have hq : n / d < k := (Nat.div_lt_iff_lt_mul hd).mpr h
  simp only [pyRound]
  generalize hQ : n / d = q at hq ⊢
  generalize hR : n % d = r
  split_ifs <;> omega

theorem pyRound_err (n d : ℕ) (hd : 0 < d) :
    -(d : ℤ) ≤ 2 * ((pyRound n d : ℤ) * d - n) ∧
    2 * ((pyRound n d : ℤ) * d - n) ≤ d := by
  have h1 : d * (n / d) + n % d = n := Nat.div_add_mod n d
  have h2 : n % d < d := Nat.mod_lt n hd
  simp only [pyRound]
  generalize hQ : n / d = q at h1 ⊢
  generalize hR : n % d = r at h1 h2 ⊢
  have h1z : (d : ℤ) * (q : ℤ) + (r : ℤ) = n := by exact_mod_cast h1
  have h2z : (r : ℤ) < d := by exact_mod_cast h2
  split_ifs with hb1 hb2 hb3
  · have hbz : 2 * (r : ℤ) < d := by exact_mod_cast hb1
    constructor <;> nlinarith [h1z]
  · have hbz : (d : ℤ) < 2 * (r : ℤ) := by exact_mod_cast hb2
    constructor <;> push_cast <;> nlinarith [h1z]
  · have hbz : 2 * (r : ℤ) = d := by omega
    constructor <;> nlinarith [h1z]
  · have hbz : 2 * (r : ℤ) = d := by omega
    constructor <;> push_cast <;> nlinarith [h1z]

/-- C2: the claim that the resize step is downscale-only is false.  The
200 x 100 image of the spec's own worked example has both dimensions
within the 1024-pixel bound, yet `ImageOps.contain` rescales it to
1024 x 512 — an enlargement, not the identity the claim requires. -/
theorem c2_counterexample :
    contain ⟨200, 100⟩ 1024 1024 = ⟨1024, 512⟩ ∧
    contain ⟨200, 100⟩ 1024 1024 ≠ ⟨200, 100⟩ ∧
    200 < (contain ⟨200, 100⟩ 1024 1024).width := by decide

/-- C2 (amended): for every fetched image with positive dimensions, the
resize step scales the image — up or down — to fit the 1024 x 1024 box
exactly: afterwards neither dimension exceeds 1024, at least one
dimension equals 1024, and the aspect ratio is preserved to within the
rounding of the scaled dimension (the cross products of the two aspect
ratios differ by at most half the larger original dimension); images
strictly inside the box are enlarged, not left at their original
size. -/
theorem c2_contain_fits_box (w h : ℕ) (hw : 1 ≤ w) (hh : 1 ≤ h) :
    (contain ⟨w, h⟩ 1024 1024).width ≤ 1024 ∧
    (contain ⟨w, h⟩ 1024 1024).height ≤ 1024 ∧
    ((contain ⟨w, h⟩ 1024 1024).width = 1024 ∨
      (contain ⟨w, h⟩ 1024 1024).height = 1024) ∧
    2 * (((contain ⟨w, h⟩ 1024 1024).width : ℤ) * h -
        (w : ℤ) * ((contain ⟨w, h⟩ 1024 1024).height : ℤ)).natAbs ≤ max w h := by
  unfold contain
  split_ifs with hc1 hc2
  · dsimp only at hc1 ⊢
    have hwh : w = h := by omega
    subst hwh
    refine ⟨le_refl _, le_refl _, Or.inl rfl, ?_⟩
    omega
  · dsimp only at hc1 hc2 ⊢
    have hlt : h < w := by omega
    have hle := pyRound_le (h * 1024) w 1024 (by omega) (by omega)
    obtain ⟨he1, he2⟩ := pyRound_err (h * 1024) w (by omega)
    push_cast at he1 he2
    refine ⟨le_refl _, hle, Or.inl rfl, ?_⟩
    have hprod : (w : ℤ) * ((pyRound (h * 1024) w : ℕ) : ℤ) =
        ((pyRound (h * 1024) w : ℕ) : ℤ) * (w : ℤ) := mul_comm _ _
    rw [hprod]
    generalize hG : ((pyRound (h * 1024) w : ℕ) : ℤ) * (w : ℤ) = X at he1 he2 ⊢
    omega
  · dsimp only at hc1 hc2 ⊢
    have hlt : w < h := by omega
    have hle := pyRound_le (w * 1024) h 1024 (by omega) (by omega)
    obtain ⟨he1, he2⟩ := pyRound_err (w * 1024) h (by omega)
    push_cast at he1 he2
    refine ⟨hle, le_refl _, Or.inr rfl, ?_⟩
    generalize hG : ((pyRound (w * 1024) h : ℕ) : ℤ) * (h : ℤ) = X at he1 he2 ⊢
    omega

/-- Witness for the amended C2 at the concrete image 200 x 100. -/
theorem c2_witness :
    (1 ≤ 200 ∧ 1 ≤ 100) ∧
    ((contain ⟨200, 100⟩ 1024 1024).width ≤ 1024 ∧
      (contain ⟨200, 100⟩ 1024 1024).height ≤ 1024 ∧
      ((contain ⟨200, 100⟩ 1024 1024).width = 1024 ∨
        (contain ⟨200, 100⟩ 1024 1024).height = 1024) ∧
      2 * (((contain ⟨200, 100⟩ 1024 1024).width : ℤ) * 100 -
          (200 : ℤ) * ((contain ⟨200, 100⟩ 1024 1024).height : ℤ)).natAbs ≤ max 200 100) :=
  ⟨⟨by decide, by decide⟩, c2_contain_fits_box 200 100 (by decide) (by decide)⟩

/-- C6: the caption renderer returns a 1 x 1 fully transparent RGBA
bitmap for captions that are empty after trimming; for captions
non-empty after trimming it returns an RGBA bitmap sized exactly to the
tight bounding box of the text at the given font, with transparent
background and the text drawn in solid black at an offset that
translates the bounding box's top-left corner to the bitmap origin. -/
theorem c6_render_text (text : String) (font : Font) :
    (pstrip text = "" →
      render_text_image text font = (⟨1, 1, rgbaTransparent, none⟩, 1, 1)) ∧
    (pstrip text ≠ "" →
      render_text_image text font =
        ((⟨(font.bbox (pstrip text)).2.2.1 - (font.bbox (pstrip text)).1,
           (font.bbox (pstrip text)).2.2.2 - (font.bbox (pstrip text)).2.1,
           rgbaTransparent,
           some ⟨pstrip text, -(font.bbox (pstrip text)).1,
                 -(font.bbox (pstrip text)).2.1, rgbaBlack⟩⟩ : TextImage),
         (font.bbox (pstrip text)).2.2.1 - (font.bbox (pstrip text)).1,
         (font.bbox (pstrip text)).2.2.2 - (font.bbox (pstrip text)).2.1)) ∧
    (pstrip text ≠ "" →
      ((render_text_image text font).1.draw.map fun d =>
        ((font.bbox (pstrip text)).1 + d.x, (font.bbox (pstrip text)).2.1 + d.y)) =
        some (0, 0)) := by
  by_cases h : pstrip text = ""
  · refine ⟨fun _ => ?_, fun hne => absurd h hne, fun hne => absurd h hne⟩
    simp [render_text_image, h]
  · rcases hb : font.bbox (pstrip text) with ⟨x0, y0, x1, y1⟩
    refine ⟨fun he => absurd he h, fun _ => ?_, fun _ => ?_⟩
    · simp [render_text_image, h, hb]
    · simp [render_text_image, h, hb]

/-- Witness for C6 at a whitespace-only caption and at the caption
"hi" under the demo font (bounding box (0, 10, 60, 50)). -/
theorem c6_witness :
    (pstrip " " = "" ∧
      render_text_image " " demoFont = (⟨1, 1, rgbaTransparent, none⟩, 1, 1)) ∧
    (pstrip "hi" ≠ "" ∧
      render_text_image "hi" demoFont =
        (⟨60, 40, rgbaTransparent, some ⟨"hi", 0, -10, rgbaBlack⟩⟩, 60, 40)) :=
  ⟨⟨by decide, (c6_render_text " " demoFont).1 (by decide)⟩,
   ⟨by decide, (c6_render_text "hi" demoFont).2.1 (by decide)⟩⟩

/-- C9: the pipeline is deterministic — the response is a pure function
of the items, the bytes behind each URL (the `World`) and the resolved
font; two runs with identical inputs produce identical responses (the
embedding of the whole pipeline, PNG encoding included, has no other
input: no randomness, clock or cross-request state). -/
theorem c9_deterministic (w1 w2 : World) (f1 f2 : Font) (i1 i2 : List RawItem)
    (hw : w1 = w2) (hf : f1 = f2) (hi : i1 = i2) :
    combine_images w1 f1 i1 = combine_images w2 f2 i2 := by
  subst hw
  subst hf
  subst hi
  rfl

/-- Witness for C9 at the demo request. -/
theorem c9_witness :
    demoWorld = demoWorld ∧
    combine_images demoWorld demoFont demoReq = combine_images demoWorld demoFont demoReq :=
  ⟨rfl, c9_deterministic demoWorld demoWorld demoFont demoFont demoReq demoReq rfl rfl rfl⟩

/-- C3: the claim is false on the code in two ways.  A whitespace-only
caption " " has raw length 1, passes the declared `min_length=1`
constraint, and the request succeeds with a PNG (the blank caption is
rendered as a 1 x 1 transparent placeholder) — no 400 is produced.  An
empty caption or a non-HTTP(S) URL is rejected by pydantic model
validation, which surfaces as 422, not 400. -/
theorem c3_counterexample :
    (combine_images demoWorld demoFont demoReqBlank).isOk = true ∧
    combine_images demoWorld demoFont [⟨"http://example.com/a.png", ""⟩] =
      .clientError 422 "request validation failed" ∧
    combine_images demoWorld demoFont [⟨"ftp://bad", "hi"⟩] =
      .clientError 422 "request validation failed" := by
  refine ⟨?_, ?_, ?_⟩ <;> decide

/-- C3 (amended): requests whose items pass model validation but whose
item count is 0 or more than 4 receive HTTP 400 and no image; any item
with an empty (length-0) caption or a malformed URL is rejected by the
model-validation layer with HTTP 422 and no image; a caption that is
whitespace-only but non-empty passes validation (it is later rendered
as a transparent placeholder, not rejected). -/
theorem c3_validation (world : World) (font : Font) (items : List RawItem) :
    (items.all pydanticValid = true → ¬(1 ≤ items.length ∧ items.length ≤ 4) →
      combine_images world font items =
        .clientError 400 "Provide between 1 and 4 items.") ∧
    (items.all pydanticValid = false →
      combine_images world font items = .clientError 422 "request validation failed") ∧
    (∀ it ∈ items, isValidHttpUrl it.imageUrl = true → 1 ≤ it.text.length →
      pydanticValid it = true) := by
  refine ⟨?_, ?_, ?_⟩
  · intro hall hcount
    unfold combine_images
    rw [if_neg (by simp [hall]), if_pos hcount]
  · intro hall
    unfold combine_images
    rw [if_pos (by simp [hall])]
  · intro it _ hurl hlen
    simp [pydanticValid, hurl, hlen]

/-- Witness for the amended C3 at the empty request. -/
theorem c3_witness :
    (([] : List RawItem).all pydanticValid = true) ∧
    combine_images demoWorld demoFont [] =
      .clientError 400 "Provide between 1 and 4 items." :=
  ⟨by decide, (c3_validation demoWorld demoFont []).1 (by decide) (by decide)⟩

theorem fetch_image_err_form (world : World) (url : String) (e : Err)
    (h : fetch_image world url = .error e) :
    ∃ d, e = .http 400 d ∧ fetchErr world url = some d ∧
      (d = "Failed to download image: " ++ url ∨
       d = "Invalid image content at: " ++ url) := by
  rcases hw : world.get url with _ | ⟨st, body⟩
  · simp only [fetch_image, hw] at h
    injection h with h2
    subst h2
    exact ⟨_, rfl, by simp [fetchErr, fetch_image, hw], Or.inl rfl⟩
  · by_cases hst : 200 ≤ st ∧ st < 300
    · cases body with
      | image img => simp [fetch_image, hw, hst] at h
      | nonImage =>
        simp only [fetch_image, hw, if_pos hst] at h
        injection h with h2
        subst h2
        exact ⟨_, rfl, by simp [fetchErr, fetch_image, hw, hst], Or.inr rfl⟩
    · simp only [fetch_image, hw, if_neg hst] at h
      injection h with h2
      subst h2
      exact ⟨_, rfl, by simp [fetchErr, fetch_image, hw, hst], Or.inl rfl⟩

theorem fetch_image_error_of_fetchErr (world : World) (url : String) (d : String)
    (h : fetchErr world url = some d) :
    fetch_image world url = .error (.http 400 d) := by
  unfold fetchErr at h
  cases hf : fetch_image world url with
  | ok img => rw [hf] at h; simp at h
  | error e =>
    obtain ⟨d2, he, _, _⟩ := fetch_image_err_form world url e hf
    rw [hf] at h
    subst he
    simp only at h
    injection h with h2
    subst h2
    rfl

theorem buildBlock_error_iff (world : World) (font : Font) (it : RawItem) (e : Err) :
    buildBlock world font it = .error e ↔ fetch_image world it.imageUrl = .error e := by
  unfold buildBlock
  cases hf : fetch_image world it.imageUrl <;> simp

theorem fetchAll_error_of_fail (world : World) (font : Font) :
    ∀ (items : List RawItem) (i : ℕ) (hi : i < items.length),
      (fetchErr world (items.get ⟨i, hi⟩).imageUrl).isSome = true →
      ∃ j, ∃ hj : j < items.length, j ≤ i ∧ ∃ d,
        fetchErr world ((items.get ⟨j, hj⟩).imageUrl) = some d ∧
        fetchAll world font items = .error (.http 400 d) := by
  intro items
  induction items with
  | nil => intro i hi; exact absurd hi (Nat.not_lt_zero i)
  | cons it rest ih =>
    intro i hi hf
    cases hfe : fetchErr world it.imageUrl with
    | some d =>
      have hfi := fetch_image_error_of_fetchErr world it.imageUrl d hfe
      have hbb : buildBlock world font it = .error (.http 400 d) :=
        (buildBlock_error_iff world font it _).mpr hfi
      refine ⟨0, Nat.succ_pos _, Nat.zero_le i, d, ?_, ?_⟩
      · simpa using hfe
      · simp [fetchAll, hbb]
    | none =>
      have hbok : ∃ b, buildBlock world font it = .ok b := by
        unfold fetchErr at hfe
        cases hf2 : fetch_image world it.imageUrl with
        | error e => rw [hf2] at hfe; rcases e with ⟨s, msg⟩; simp at hfe
        | ok img =>
          refine ⟨⟨contain img 1024 1024, (render_text_image (pstrip it.text) font).1,
            (render_text_image (pstrip it.text) font).2.1,
            (render_text_image (pstrip it.text) font).2.2⟩, ?_⟩
          simp [buildBlock, hf2]
      obtain ⟨b, hbok⟩ := hbok
      cases i with
      | zero =>
        have : (fetchErr world it.imageUrl).isSome = true := by simpa using hf
        rw [hfe] at this
        simp at this
      | succ i2 =>
        have hi2 : i2 < rest.length := by simpa using hi
        have hf2 : (fetchErr world (rest.get ⟨i2, hi2⟩).imageUrl).isSome = true := by
          simpa using hf
        obtain ⟨j, hj, hji, d, hjd, hrest⟩ := ih i2 hi2 hf2
        refine ⟨j + 1, Nat.succ_lt_succ hj, Nat.succ_le_succ hji, d, by simpa using hjd, ?_⟩
        simp [fetchAll, hbok, hrest]

/-- C7: if any item's fetch fails — network-level failure, non-2xx
status, or a body that does not decode as an image — the whole request
aborts with HTTP 400 whose detail names the offending URL (the first
failing item in request order), and no image response is produced. -/
theorem c7_fetch_failure (world : World) (font : Font) (items : List RawItem)
    (i : ℕ) (hi : i < items.length)
    (hv : items.all pydanticValid = true)
    (hn : 1 ≤ items.length ∧ items.length ≤ 4)
    (hf : (fetchErr world (items.get ⟨i, hi⟩).imageUrl).isSome = true) :
    ∃ j, ∃ hj : j < items.length, j ≤ i ∧ ∃ d,
      fetchErr world ((items.get ⟨j, hj⟩).imageUrl) = some d ∧
      combine_images world font items = .clientError 400 d ∧
      (d = "Failed to download image: " ++ (items.get ⟨j, hj⟩).imageUrl ∨
       d = "Invalid image content at: " ++ (items.get ⟨j, hj⟩).imageUrl) := by
  obtain ⟨j, hj, hji, d, hjd, hfa⟩ := fetchAll_error_of_fail world font items i hi hf
  refine ⟨j, hj, hji, d, hjd, ?_, ?_⟩
  · unfold combine_images
    rw [if_neg (by simp [hv]), if_neg (not_not_intro hn), hfa]
  · have hfi := fetch_image_error_of_fetchErr world _ d hjd
    obtain ⟨d2, he2, _, hor⟩ := fetch_image_err_form world _ _ hfi
    have hd2 : d = d2 := by injection he2 with h1 h2
    rcases hor with hmsg | hmsg
    · exact Or.inl (by rw [hd2]; exact hmsg)
    · exact Or.inr (by rw [hd2]; exact hmsg)

/-- A network environment where every URL yields HTTP 404. -/
def failWorld : World := ⟨fun _ => .response 404 .nonImage⟩

/-- Witness for C7: a 404 source URL makes the demo request fail. -/
theorem c7_witness :
    (0 < demoReq.length ∧ demoReq.all pydanticValid = true ∧
      (fetchErr failWorld (demoReq.get ⟨0, by decide⟩).imageUrl).isSome = true) ∧
    (∃ j, ∃ hj : j < demoReq.length, j ≤ 0 ∧ ∃ d,
      fetchErr failWorld ((demoReq.get ⟨j, hj⟩).imageUrl) = some d ∧
      combine_images failWorld demoFont demoReq = .clientError 400 d ∧
      (d = "Failed to download image: " ++ (demoReq.get ⟨j, hj⟩).imageUrl ∨
       d = "Invalid image content at: " ++ (demoReq.get ⟨j, hj⟩).imageUrl)) :=
  ⟨⟨by decide, by decide, by decide⟩,
   c7_fetch_failure failWorld demoFont demoReq 0 (by decide) (by decide)
     (by decide) (by decide)⟩

theorem finalize_of_target (c : Canvas)
    (hc : c.width = 2560 ∧ c.height = 1408) : finalize c = .unchanged c := by
  unfold finalize
  simp only [TARGET_WIDTH, TARGET_HEIGHT]
  rw [if_pos hc]

theorem finalize_def (c : Canvas) (hne : ¬(c.width = 2560 ∧ c.height = 1408)) :
    finalize c = .letterboxed c
      (max 1 (min 2560 (if 2560 * c.height ≤ 1408 * c.width then (2560 : ℤ)
        else c.width * 1408 / c.height)))
      (max 1 (min 1408 (if 2560 * c.height ≤ 1408 * c.width then c.height * 2560 / c.width
        else (1408 : ℤ))))
      ((2560 - max 1 (min 2560 (if 2560 * c.height ≤ 1408 * c.width then (2560 : ℤ)
        else c.width * 1408 / c.height))) / 2)
      ((1408 - max 1 (min 1408 (if 2560 * c.height ≤ 1408 * c.width then c.height * 2560 / c.width
        else (1408 : ℤ)))) / 2) := by
  unfold finalize
  simp only [TARGET_WIDTH, TARGET_HEIGHT]
  rw [if_neg hne]

theorem finalize_target_dims (c : Canvas) :
    (encodePng (finalize c)).width = 2560 ∧ (encodePng (finalize c)).height = 1408 ∧
    (∀ cv, finalize c = .unchanged cv → cv.width = 2560 ∧ cv.height = 1408) ∧
    (∀ cv sw sh px py, finalize c = .letterboxed cv sw sh px py →
      ¬(cv.width = 2560 ∧ cv.height = 1408)) := by
  by_cases hc : c.width = 2560 ∧ c.height = 1408
  · rw [finalize_of_target c hc]
    refine ⟨by simp [encodePng, outputDims, hc.1], by simp [encodePng, outputDims, hc.2],
      ?_, ?_⟩
    · intro cv hcv
      injection hcv with h1
      subst h1
      exact hc
    · intro cv sw sh px py hcv
      simp at hcv
  · rw [finalize_def c hc]
    refine ⟨by simp [encodePng, outputDims, TARGET_WIDTH],
      by simp [encodePng, outputDims, TARGET_HEIGHT], ?_, ?_⟩
    · intro cv hcv
      simp at hcv
    · intro cv sw sh px py hcv
      injection hcv with h1 h2 h3 h4 h5
      subst h1
      exact hc

/-- C1: every successful response carries a PNG whose decoded pixel
dimensions are exactly 2560 x 1408, for any item count the handler
accepts (1 to 4) and for any input image sizes or captions; the
composed canvas is encoded as-is exactly when it already measures
2560 x 1408 and is letterboxed onto the white target canvas
otherwise. -/
theorem c1_output_dims (world : World) (font : Font) (items : List RawItem) (png : Png)
    (h : combine_images world font items = .ok png) :
    (1 ≤ items.length ∧ items.length ≤ 4) ∧
    png.width = 2560 ∧ png.height = 1408 ∧
    (∀ cv, png.image = .unchanged cv → cv.width = 2560 ∧ cv.height = 1408) ∧
    (∀ cv sw sh px py, png.image = .letterboxed cv sw sh px py →
      ¬(cv.width = 2560 ∧ cv.height = 1408)) := by
  unfold combine_images at h
  split_ifs at h with h1 h2
  cases hfa : fetchAll world font items with
  | error e =>
    rcases e with ⟨s, d⟩
    rw [hfa] at h
    simp at h
  | ok blocks =>
    rw [hfa] at h
    simp only at h
    injection h with h3
    subst h3
    obtain ⟨hwidth, hheight, hu, hl⟩ := finalize_target_dims (combineLayout blocks)
    refine ⟨h2, hwidth, hheight, ?_, ?_⟩
    · intro cv hcv
      exact hu cv (by simpa [encodePng] using hcv)
    · intro cv sw sh px py hcv
      exact hl cv sw sh px py (by simpa [encodePng] using hcv)

/-- The PNG of an HTTP response, when the response is a success. -/
def pngOf (r : HttpResponse) : Option Png :=
  match r with
  | .ok p => some p
  | .clientError _ _ => none

/-- The PNG returned for the demo request. -/
def demoPng : Png :=
  (pngOf (combine_images demoWorld demoFont demoReq)).getD
    ⟨0, 0, .unchanged ⟨0, 0, colorWhiteRGB, []⟩⟩

/-- Witness for C1 at the demo request. -/
theorem c1_witness :
    combine_images demoWorld demoFont demoReq = .ok demoPng ∧
    demoPng.width = 2560 ∧ demoPng.height = 1408 :=
  ⟨by decide,
   (c1_output_dims demoWorld demoFont demoReq demoPng (by decide)).2.1,
   (c1_output_dims demoWorld demoFont demoReq demoPng (by decide)).2.2.1⟩

/-- C4: on a composed canvas of any size other than 2560 x 1408, the
finalizer scales by the single factor min(2560/W, 1408/H) (each scaled
dimension truncated, then clamped to at least 1 and at most the target
dimension), pastes the scaled canvas onto the white target canvas at
the floor-divided centring offset, so the opposite white margins differ
by at most one pixel, and outputs exactly 2560 x 1408. -/
theorem c4_finalizer (c : Canvas) (hw : 1 ≤ c.width) (hh : 1 ≤ c.height)
    (hne : ¬ (c.width = 2560 ∧ c.height = 1408)) :
    ∃ sw sh px py,
      finalize c = .letterboxed c sw sh px py ∧
      sw = max 1 (min 2560
        ⌊(c.width : ℚ) * min ((2560 : ℚ) / (c.width : ℚ)) ((1408 : ℚ) / (c.height : ℚ))⌋) ∧
      sh = max 1 (min 1408
        ⌊(c.height : ℚ) * min ((2560 : ℚ) / (c.width : ℚ)) ((1408 : ℚ) / (c.height : ℚ))⌋) ∧
      px = (2560 - sw) / 2 ∧ py = (1408 - sh) / 2 ∧
      1 ≤ sw ∧ sw ≤ 2560 ∧ 1 ≤ sh ∧ sh ≤ 1408 ∧ 0 ≤ px ∧ 0 ≤ py ∧
      ((2560 - (px + sw)) - px = 0 ∨ (2560 - (px + sw)) - px = 1) ∧
      ((1408 - (py + sh)) - py = 0 ∨ (1408 - (py + sh)) - py = 1) ∧
      (∀ x y : ℤ, (x < px ∨ px + sw ≤ x ∨ y < py ∨ py + sh ≤ y) →
        finalPixel (finalize c) x y = .white) ∧
      outputDims (finalize c) = (2560, 1408) := by
  obtain ⟨hf1, hf2⟩ := finalize_eq_floor c.width c.height (by omega) (by omega)
  have hfin := finalize_def c hne
  generalize hA : (if 2560 * c.height ≤ 1408 * c.width then (2560 : ℤ)
      else c.width * 1408 / c.height) = swRaw at hfin hf1
  generalize hB : (if 2560 * c.height ≤ 1408 * c.width then c.height * 2560 / c.width
      else (1408 : ℤ)) = shRaw at hfin hf2
  have hsw1 : (1 : ℤ) ≤ max 1 (min 2560 swRaw) := le_max_left _ _
  have hsw2 : max 1 (min 2560 swRaw) ≤ 2560 :=
    max_le (by norm_num) (min_le_left _ _)
  have hsh1 : (1 : ℤ) ≤ max 1 (min 1408 shRaw) := le_max_left _ _
  have hsh2 : max 1 (min 1408 shRaw) ≤ 1408 :=
    max_le (by norm_num) (min_le_left _ _)
  refine ⟨_, _, _, _, hfin, ?_, ?_, rfl, rfl, hsw1, hsw2, hsh1, hsh2,
    ?_, ?_, ?_, ?_, ?_, ?_⟩
  · rw [hf1]
  · rw [hf2]
  · exact Int.ediv_nonneg (by omega) (by norm_num)
  · exact Int.ediv_nonneg (by omega) (by norm_num)
  · omega
  · omega
  · intro x y hxy
    rw [hfin]
    simp only [finalPixel]
    split_ifs with hin
    · exfalso
      omega
    · rfl
  · rw [hfin]
    rfl

/-- A 1072 x 569 composed canvas (one demo cell) for the C4 witness. -/
def demoCanvas : Canvas := ⟨1072, 569, colorWhiteRGB, []⟩

/-- Witness for C4 at the 1072 x 569 demo canvas. -/
theorem c4_witness :
    (1 ≤ demoCanvas.width ∧ 1 ≤ demoCanvas.height ∧
      ¬(demoCanvas.width = 2560 ∧ demoCanvas.height = 1408)) ∧
    (∃ sw sh px py,
      finalize demoCanvas = .letterboxed demoCanvas sw sh px py ∧
      sw = max 1 (min 2560
        ⌊(demoCanvas.width : ℚ) *
          min ((2560 : ℚ) / (demoCanvas.width : ℚ)) ((1408 : ℚ) / (demoCanvas.height : ℚ))⌋) ∧
      sh = max 1 (min 1408
        ⌊(demoCanvas.height : ℚ) *
          min ((2560 : ℚ) / (demoCanvas.width : ℚ)) ((1408 : ℚ) / (demoCanvas.height : ℚ))⌋) ∧
      px = (2560 - sw) / 2 ∧ py = (1408 - sh) / 2 ∧
      1 ≤ sw ∧ sw ≤ 2560 ∧ 1 ≤ sh ∧ sh ≤ 1408 ∧ 0 ≤ px ∧ 0 ≤ py ∧
      ((2560 - (px + sw)) - px = 0 ∨ (2560 - (px + sw)) - px = 1) ∧
      ((1408 - (py + sh)) - py = 0 ∨ (1408 - (py + sh)) - py = 1) ∧
      (∀ x y : ℤ, (x < px ∨ px + sw ≤ x ∨ y < py ∨ py + sh ≤ y) →
        finalPixel (finalize demoCanvas) x y = .white) ∧
      outputDims (finalize demoCanvas) = (2560, 1408)) :=
  ⟨⟨by decide, by decide, by decide⟩,
   c4_finalizer demoCanvas (by decide) (by decide) (by decide)⟩

theorem renderAll_length (cw ch : ℤ) :
    ∀ (s : ℕ) (bs : List Block), (renderAll cw ch s bs).length = bs.length := by
  intro s bs
  induction bs generalizing s with
  | nil => rfl
  | cons b bs2 ih => simp [renderAll, ih]

theorem renderAll_get? (cw ch : ℤ) :
    ∀ (bs : List Block) (s j : ℕ),
      (renderAll cw ch s bs).get? j = (bs.get? j).map (renderBlock cw ch (s + j)) := by
  intro bs
  induction bs with
  | nil => intro s j; simp [renderAll]
  | cons b bs2 ih =>
    intro s j
    cases j with
    | zero => simp [renderAll]
    | succ j2 =>
      have harith : s + (j2 + 1) = (s + 1) + j2 := by omega
      simp only [renderAll, List.get?_cons_succ, ih (s + 1) j2, harith]

theorem renderAll_mem (cw ch : ℤ) :
    ∀ (s : ℕ) (bs : List Block) (bc : BlockCmds), bc ∈ renderAll cw ch s bs →
      ∃ k b, bs.get? k = some b ∧ bc = renderBlock cw ch (s + k) b := by
  intro s bs
  induction bs generalizing s with
  | nil => intro bc h; simp [renderAll] at h
  | cons b bs2 ih =>
    intro bc h
    rcases List.mem_cons.mp h with rfl | h2
    · exact ⟨0, b, rfl, by rw [Nat.add_zero]⟩
    · obtain ⟨k, b2, hget, rfl⟩ := ih (s + 1) bc h2
      exact ⟨k + 1, b2, by simpa using hget, by rw [show s + (k + 1) = (s + 1) + k by omega]⟩

theorem renderBlock_within (cw ch : ℤ) (i : ℕ) (b : Block)
    (htw : 0 ≤ b.text_width) (hth : 0 ≤ b.text_height)
    (hcw : max (b.image.width : ℤ) b.text_width + 2 * 24 ≤ cw)
    (hch : b.text_height + 8 + (b.image.height : ℤ) + 2 * 24 ≤ ch) :
    ∀ x y, inBlockCmds (renderBlock cw ch i b) x y → inCell cw ch i x y := by
  intro x y hin
  rcases hin with ht | him | ⟨r, hr, hrin⟩
  · simp only [renderBlock, inPaste] at ht
    simp only [inCell]
    generalize hxo : ((i % 2 : ℕ) : ℤ) * cw = xo at ht ⊢
    generalize hyo : ((i / 2 : ℕ) : ℤ) * ch = yo at ht ⊢
    omega
  · simp only [renderBlock, inPaste] at him
    simp only [inCell]
    generalize hxo : ((i % 2 : ℕ) : ℤ) * cw = xo at him ⊢
    generalize hyo : ((i / 2 : ℕ) : ℤ) * ch = yo at him ⊢
    omega
  · simp only [renderBlock] at hr
    rw [List.mem_map] at hr
    obtain ⟨k, hk, rfl⟩ := hr
    rw [List.mem_range] at hk
    simp only [inRectCmd] at hrin
    simp only [inCell]
    generalize hxo : ((i % 2 : ℕ) : ℤ) * cw = xo at hrin ⊢
    generalize hyo : ((i / 2 : ℕ) : ℤ) * ch = yo at hrin ⊢
    omega

theorem combineLayout_eq (blocks : List Block) (cols rows : ℕ)
    (hg : gridShape blocks.length = (cols, rows)) :
    combineLayout blocks =
      { width := cellWidth blocks * (cols : ℤ),
        height := cellHeight blocks * (rows : ℤ),
        bg := colorWhiteRGB,
        renders := renderAll (cellWidth blocks) (cellHeight blocks) 0 blocks } := by
  simp [combineLayout, hg]

theorem block_bounds_of_mem (blocks : List Block) (b : Block) (hmem : b ∈ blocks) :
    max (b.image.width : ℤ) b.text_width + 2 * 24 ≤ cellWidth blocks ∧
    b.text_height + 8 + (b.image.height : ℤ) + 2 * 24 ≤ cellHeight blocks := by
  have h1 : max (b.image.width : ℤ) b.text_width ≤ maxContentWidth blocks :=
    le_foldl_max _ 0 _ (List.mem_map_of_mem _ hmem)
  have h2 : (b.image.height : ℤ) ≤ maxImageHeight blocks :=
    le_foldl_max _ 0 _ (List.mem_map_of_mem _ hmem)
  have h3 : b.text_height ≤ maxTextHeight blocks :=
    le_foldl_max _ 0 _ (List.mem_map_of_mem _ hmem)
  unfold cellWidth cellHeight
  omega

/-- C5: for 1 to 4 blocks (whose caption bitmaps have non-negative
measured dimensions), the composed canvas is white, measures exactly
(maxContentWidth + 2*24) * cols by
(maxImageHeight + maxCaptionHeight + 8 + 2*24) * rows, the grid is
1 x 1, 2 x 1 or 2 x 2 according to the item count, there is exactly one
render group per block, every drawing operation of block i stays inside
grid cell i (row i / 2, column i mod 2), and for 3 items nothing is
drawn in the fourth cell. -/
theorem c5_layout (blocks : List Block)
    (hn : 1 ≤ blocks.length ∧ blocks.length ≤ 4)
    (hb : ∀ b ∈ blocks, 0 ≤ b.text_width ∧ 0 ≤ b.text_height) :
    (combineLayout blocks).bg = colorWhiteRGB ∧
    (combineLayout blocks).width =
      (maxContentWidth blocks + 2 * 24) * ((gridShape blocks.length).1 : ℤ) ∧
    (combineLayout blocks).height =
      (maxImageHeight blocks + maxTextHeight blocks + 8 + 2 * 24) *
        ((gridShape blocks.length).2 : ℤ) ∧
    (blocks.length = 1 → gridShape blocks.length = (1, 1)) ∧
    (blocks.length = 2 → gridShape blocks.length = (2, 1)) ∧
    (blocks.length = 3 ∨ blocks.length = 4 → gridShape blocks.length = (2, 2)) ∧
    (combineLayout blocks).renders.length = blocks.length ∧
    (∀ i bc, (combineLayout blocks).renders.get? i = some bc →
      ∀ x y, inBlockCmds bc x y →
        inCell (cellWidth blocks) (cellHeight blocks) i x y) ∧
    (blocks.length = 3 → ∀ bc ∈ (combineLayout blocks).renders, ∀ x y,
      inBlockCmds bc x y →
      ¬ inCell (cellWidth blocks) (cellHeight blocks) 3 x y) := by
  rcases hg : gridShape blocks.length with ⟨cols, rows⟩
  have hcl := combineLayout_eq blocks cols rows hg
  refine ⟨by rw [hcl], by rw [hcl]; rfl, by rw [hcl]; rfl, ?_, ?_, ?_, ?_, ?_, ?_⟩
  · intro h1
    rw [h1] at hg
    exact hg.symm
  · intro h2
    rw [h2] at hg
    exact hg.symm
  · intro h34
    rcases h34 with h3 | h4
    · rw [h3] at hg
      exact hg.symm
    · rw [h4] at hg
      exact hg.symm
  · rw [hcl]
    exact renderAll_length _ _ 0 blocks
  · intro i bc hbc x y hin
    rw [hcl] at hbc
    rw [renderAll_get? _ _ blocks 0 i] at hbc
    cases hgi : blocks.get? i with
    | none => rw [hgi] at hbc; simp at hbc
    | some b =>
      rw [hgi] at hbc
      simp only [Option.map_some, Nat.zero_add] at hbc
      injection hbc with hbc2
      subst hbc2
      have hmem : b ∈ blocks := List.get?_mem hgi
      obtain ⟨htw, hth⟩ := hb b hmem
      obtain ⟨hw1, hw2⟩ := block_bounds_of_mem blocks b hmem
      exact renderBlock_within _ _ i b htw hth hw1 hw2 x y hin
  · intro h3len bc hmembc x y hin hc3
    rw [hcl] at hmembc
    obtain ⟨k, b, hget, rfl⟩ := renderAll_mem _ _ 0 blocks bc hmembc
    have hklt : k < blocks.length := by
      by_contra hkk
      rw [List.get?_eq_none.mpr (by omega)] at hget
      cases hget
    have hmem : b ∈ blocks := List.get?_mem hget
    obtain ⟨htw, hth⟩ := hb b hmem
    obtain ⟨hw1, hw2⟩ := block_bounds_of_mem blocks b hmem
    have hck := renderBlock_within _ _ (0 + k) b htw hth hw1 hw2 x y hin
    rw [h3len] at hklt
    simp only [inCell] at hck hc3
    norm_num at hc3
    interval_cases k <;> norm_num at hck <;> omega

/-- Witness for C5 at three demo blocks. -/
theorem c5_witness :
    ((1 ≤ demoBlocks3.length ∧ demoBlocks3.length ≤ 4) ∧
      (∀ b ∈ demoBlocks3, 0 ≤ b.text_width ∧ 0 ≤ b.text_height)) ∧
    (combineLayout demoBlocks3).bg = colorWhiteRGB ∧
    (combineLayout demoBlocks3).width =
      (maxContentWidth demoBlocks3 + 2 * 24) * ((gridShape demoBlocks3.length).1 : ℤ) :=
  ⟨⟨⟨by decide, by decide⟩, by decide⟩,
   (c5_layout demoBlocks3 ⟨by decide, by decide⟩ (by decide)).1,
   (c5_layout demoBlocks3 ⟨by decide, by decide⟩ (by decide)).2.1⟩

/-- C8: the claim that a border is drawn for every cell of the grid is
false.  With 3 items the grid is 2 x 2 (cells of 148 x 126 here), but
the loop draws borders per block, so only the three occupied cells get
outlines: no rectangle is ever drawn inside the empty fourth cell
(x0 ≥ 148 and y0 ≥ 126). -/
theorem c8_counterexample :
    gridShape demoBlocks3.length = (2, 2) ∧
    (combineLayout demoBlocks3).renders.length = 3 ∧
    ¬ ∃ bc ∈ (combineLayout demoBlocks3).renders, ∃ r ∈ bc.border,
        148 ≤ r.x0 ∧ 126 ≤ r.y0 := by
  decide

/-- C8 (amended): for each of the n blocks (the occupied cells), the
program draws exactly 2 concentric 1-pixel black rectangle outlines
inset progressively (0 and 1 pixels) from that block's cell boundary —
positioned at the cell, not at the block's own bounding box; there is
one render group per block, so with 3 items the empty fourth grid cell
receives no border. -/
theorem c8_borders_per_block (blocks : List Block) (i : ℕ) (bc : BlockCmds)
    (h : (combineLayout blocks).renders.get? i = some bc) :
    (combineLayout blocks).renders.length = blocks.length ∧
    bc.border =
      [⟨((i % 2 : ℕ) : ℤ) * cellWidth blocks,
        ((i / 2 : ℕ) : ℤ) * cellHeight blocks,
        ((i % 2 : ℕ) : ℤ) * cellWidth blocks + cellWidth blocks - 1,
        ((i / 2 : ℕ) : ℤ) * cellHeight blocks + cellHeight blocks - 1,
        colorBlackRGB⟩,
       ⟨((i % 2 : ℕ) : ℤ) * cellWidth blocks + 1,
        ((i / 2 : ℕ) : ℤ) * cellHeight blocks + 1,
        ((i % 2 : ℕ) : ℤ) * cellWidth blocks + cellWidth blocks - 2,
        ((i / 2 : ℕ) : ℤ) * cellHeight blocks + cellHeight blocks - 2,
        colorBlackRGB⟩] := by
  rcases hg : gridShape blocks.length with ⟨cols, rows⟩
  have hcl := combineLayout_eq blocks cols rows hg
  refine ⟨by rw [hcl]; exact renderAll_length _ _ 0 blocks, ?_⟩
  rw [hcl] at h
  rw [renderAll_get? _ _ blocks 0 i] at h
  cases hgi : blocks.get? i with
  | none => rw [hgi] at h; simp at h
  | some b =>
    rw [hgi] at h
    simp only [Option.map_some, Nat.zero_add] at h
    injection h with h2
    subst h2
    simp only [renderBlock]
    rw [show List.range 2 = [0, 1] by decide]
    simp only [List.map_cons, List.map_nil]
    norm_num
    constructor <;> ring

/-- The first render group of the three-block demo layout. -/
def demoBc0 : BlockCmds :=
  ⟨⟨59, 24, 30, 20⟩, ⟨24, 52, 100, 50⟩,
   [⟨0, 0, 147, 125, colorBlackRGB⟩, ⟨1, 1, 146, 124, colorBlackRGB⟩]⟩

/-- Witness for the amended C8 at block 0 of the three demo blocks. -/
theorem c8_witness :
    (combineLayout demoBlocks3).renders.get? 0 = some demoBc0 ∧
    ((combineLayout demoBlocks3).renders.length = demoBlocks3.length ∧
      demoBc0.border =
        [⟨((0 % 2 : ℕ) : ℤ) * cellWidth demoBlocks3,
          ((0 / 2 : ℕ) : ℤ) * cellHeight demoBlocks3,
          ((0 % 2 : ℕ) : ℤ) * cellWidth demoBlocks3 + cellWidth demoBlocks3 - 1,
          ((0 / 2 : ℕ) : ℤ) * cellHeight demoBlocks3 + cellHeight demoBlocks3 - 1,
          colorBlackRGB⟩,
         ⟨((0 % 2 : ℕ) : ℤ) * cellWidth demoBlocks3 + 1,
          ((0 / 2 : ℕ) : ℤ) * cellHeight demoBlocks3 + 1,
          ((0 % 2 : ℕ) : ℤ) * cellWidth demoBlocks3 + cellWidth demoBlocks3 - 2,
          ((0 / 2 : ℕ) : ℤ) * cellHeight demoBlocks3 + cellHeight demoBlocks3 - 2,
          colorBlackRGB⟩]) :=
  ⟨by decide, c8_borders_per_block demoBlocks3 0 demoBc0 (by decide)⟩

theorem buildBlock_pad (world : World) (font : Font) (url t : String)
    (p q : List Char)
    (hp : ∀ c ∈ p, pyWhitespace c = true) (hq : ∀ c ∈ q, pyWhitespace c = true) :
    buildBlock world font ⟨url, (⟨p⟩ : String) ++ t ++ (⟨q⟩ : String)⟩ =
      buildBlock world font ⟨url, t⟩ := by
  unfold buildBlock
  rw [show (⟨url, (⟨p⟩ : String) ++ t ++ (⟨q⟩ : String)⟩ : RawItem).text =
    (⟨p⟩ : String) ++ t ++ (⟨q⟩ : String) from rfl]
  rw [pstrip_pad p q t hp hq]

theorem fetchAll_middle_congr (world : World) (font : Font) (a b : RawItem)
    (hab : buildBlock world font a = buildBlock world font b) :
    ∀ pre suf, fetchAll world font (pre ++ a :: suf) =
      fetchAll world font (pre ++ b :: suf) := by
  intro pre
  induction pre with
  | nil => intro suf; simp [fetchAll, hab]
  | cons x xs ih => intro suf; simp [fetchAll, ih suf]

/-- C10: the output is invariant under extra leading or trailing
whitespace in any caption.  Replacing an item's text `t ≠ ""` with
whitespace-padded text gives exactly the same response (success or
error): the padded text still passes the `min_length=1` validation, and
every later use of the caption strips it first, so measurement,
rendering and layout are unchanged. -/
theorem c10_whitespace (world : World) (font : Font) (pre suf : List RawItem)
    (url t : String) (p q : List Char)
    (hp : ∀ c ∈ p, pyWhitespace c = true) (hq : ∀ c ∈ q, pyWhitespace c = true)
    (ht : t ≠ "") :
    combine_images world font
        (pre ++ (⟨url, (⟨p⟩ : String) ++ t ++ (⟨q⟩ : String)⟩ : RawItem) :: suf) =
      combine_images world font (pre ++ (⟨url, t⟩ : RawItem) :: suf) := by
  have hlen : 1 ≤ t.length := by
    rcases t with ⟨d⟩
    cases d with
    | nil => exact absurd rfl ht
    | cons c cs => exact Nat.succ_le_succ (Nat.zero_le cs.length)
  have hplen : 1 ≤ ((⟨p⟩ : String) ++ t ++ (⟨q⟩ : String)).length := by
    show 1 ≤ ((p ++ t.data) ++ q).length
    have hl2 : t.length = t.data.length := rfl
    rw [List.length_append, List.length_append]
    omega
  have hvalid_eq :
      pydanticValid ⟨url, (⟨p⟩ : String) ++ t ++ (⟨q⟩ : String)⟩ =
        pydanticValid ⟨url, t⟩ := by
    unfold pydanticValid
    rw [decide_eq_true hplen, decide_eq_true hlen]
  have hall_eq :
      ((pre ++ (⟨url, (⟨p⟩ : String) ++ t ++ (⟨q⟩ : String)⟩ : RawItem) :: suf).all
        pydanticValid) =
      ((pre ++ (⟨url, t⟩ : RawItem) :: suf).all pydanticValid) := by
    simp [List.all_append, List.all_cons, hvalid_eq]
  have hlen_eq :
      (pre ++ (⟨url, (⟨p⟩ : String) ++ t ++ (⟨q⟩ : String)⟩ : RawItem) :: suf).length =
      (pre ++ (⟨url, t⟩ : RawItem) :: suf).length := by
    simp
  have hfa := fetchAll_middle_congr world font _ _
    (buildBlock_pad world font url t p q hp hq) pre suf
  unfold combine_images
  rw [hall_eq, hlen_eq, hfa]

/-- Witness for C10: padding the caption "hi" with a leading space
leaves the demo response unchanged. -/
theorem c10_witness :
    (∀ c ∈ [' '], pyWhitespace c = true) ∧
    combine_images demoWorld demoFont
        [⟨"http://example.com/a.png", (⟨[' ']⟩ : String) ++ "hi" ++ (⟨[]⟩ : String)⟩] =
      combine_images demoWorld demoFont [⟨"http://example.com/a.png", "hi"⟩] :=
  ⟨by decide,
   c10_whitespace demoWorld demoFont [] [] "http://example.com/a.png" "hi" [' '] []
     (by decide) (by decide) (by decide)⟩

end CombineImage
